import Mathlib

/-!
A shallow embedding, in Lean 4, of the core operators of a Go lazy
sequence-combinator (LINQ-style) library, together with theorems checking the
library's natural-language specification against the code.

Embedding conventions.
All claims under scrutiny concern finite sequences that are ultimately
materialized (`ToSlice`), so a sequence is embedded as a `List α` and each
operator as the function on lists computed by the Go operator's traversal
loop, translated statement by statement.  Go's push-iterator protocol
(`yield` returning false to stop) is reflected by the recursion structure:
a traversal that returns early simply does not recurse into the rest of the
list.  Fallible operators return `Except Err α`, where `Err` mirrors the six
error values of Errors.go.  The three-tier equality/ordering resolution
(explicit comparer, self-describing capability, structural/primitive
fallback) always produces one two-argument test that is fixed for the whole
call; each embedded operator therefore takes that resolved test as an
explicit parameter (`eq : α → α → Bool` or `cmp : α → α → Int`), which is
exactly the shape of the comparer branch of the Go code; the other two
branches run the same loop with a different test.
-/

namespace Linq

/-- The six failure signals of Errors.go. -/
inductive Err : Type
  | sourceContainsNoElements
  | noElementSatisfiesTheConditionInPredicate
  | moreThanOneElementSatisfiesTheConditionInPredicate
  | sourceHasMoreThanOneElement
  | sizeIsBelowOne
  | indexOutOfRange
deriving DecidableEq, Repr

/-- Go `Iterator.Contains` (resolved-equality loop): scans the sequence and
returns true as soon as `eq item value` holds for some element `item`.
The Go function picks one of four equality tests (explicit comparer,
`IEquatable`, `reflect` comparison, `reflect.DeepEqual`) and runs this loop
with it; `eq` is that resolved test. -/
def Contains (eq : α → α → Bool) (source : List α) (value : α) : Bool :=
  source.any fun item => eq item value

/-- Helper loop of Go `Iterator.Distinct`: `acc` is the `result` slice of
already-kept elements; each incoming element is appended iff `Contains`
does not find it among the kept ones. -/
def Distinct.loop (eq : α → α → Bool) (acc : List α) : List α → List α
  | [] => acc
  | x :: xs =>
    if Contains eq acc x then Distinct.loop eq acc xs
    else Distinct.loop eq (acc ++ [x]) xs

/-- Go `Iterator.Distinct`: keeps the first occurrence of each element under
the resolved equality, in first-occurrence order. -/
def Distinct (eq : α → α → Bool) (source : List α) : List α :=
  Distinct.loop eq [] source

/-- Inner loop of Go `Iterator.Except`: for a fixed left element `item`,
ranges over the distinct right-hand elements and yields `item` once for
every right-hand element equal to it. -/
def exceptInner (eq : α → α → Bool) (item : α) : List α → List α
  | [] => []
  | other :: rest =>
    if eq item other then item :: exceptInner eq item rest
    else exceptInner eq item rest

/-- Outer loop of Go `Iterator.Except`: ranges over the distinct left-hand
elements, running the inner loop for each.  (The Go code re-runs
`sequence.Distinct()` for every left element; the result of that recomputation
is the same list every time, so it is hoisted here.) -/
def exceptOuter (eq : α → α → Bool) (dseq : List α) : List α → List α
  | [] => []
  | item :: rest => exceptInner eq item dseq ++ exceptOuter eq dseq rest

/-- Go `Iterator.Except` as implemented: nested loops over
`source.Distinct()` and `sequence.Distinct()` that yield the left element
whenever the two compare equal.  (Note: this is what the code does; its own
doc comment describes a set difference instead.) -/
def ExceptGo (eq : α → α → Bool) (source sequence : List α) : List α :=
  exceptOuter eq (Distinct eq sequence) (Distinct eq source)

/-- Loop of Go `Iterator.Max` (explicit-comparer branch) after the first
element seeded `max`: `if compare(max, item) > 0 { max = item }`. -/
def Max.loop (cmp : α → α → Int) (mx : α) : List α → α
  | [] => mx
  | x :: xs => Max.loop cmp (if cmp mx x > 0 then x else mx) xs

/-- Go `Iterator.Max` (explicit-comparer branch): the `found` flag is false
exactly until the first element, which seeds the accumulator. -/
def Max (cmp : α → α → Int) : List α → Except Err α
  | [] => Except.error Err.sourceContainsNoElements
  | x :: xs => Except.ok (Max.loop cmp x xs)

/-- Loop of Go `Iterator.Min` (explicit-comparer branch):
`if compare(min, item) < 0 { min = item }`. -/
def Min.loop (cmp : α → α → Int) (mn : α) : List α → α
  | [] => mn
  | x :: xs => Min.loop cmp (if cmp mn x < 0 then x else mn) xs

/-- Go `Iterator.Min` (explicit-comparer branch). -/
def Min (cmp : α → α → Int) : List α → Except Err α
  | [] => Except.error Err.sourceContainsNoElements
  | x :: xs => Except.ok (Min.loop cmp x xs)

/-- Buffer-and-emit loop of Go `Iterator.Reverse`: the source has been
materialized into `rv`; the Go emit loop is
`for i := len(reverse); i >= 0; i--  { yield(reverse[i]) }`, so it starts at
index `len(reverse)`.  An out-of-range index access is a Go panic, modelled
as `none`. -/
def Reverse.go (rv : List α) : Nat → List α → Option (List α)
  | 0, acc =>
    match rv[0]? with
    | none => none
    | some x => some (acc ++ [x])
  | i + 1, acc =>
    match rv[i + 1]? with
    | none => none
    | some x => Reverse.go rv i (acc ++ [x])

/-- Go `Iterator.Reverse`: materializes the source, then emits from index
`len` downto `0` (as written in the code). -/
def Reverse (source : List α) : Option (List α) :=
  Reverse.go source source.length []

/-- Go `Iterator.TakeWhile`: for each element, `if predicate(item) { return }`
(stop and pull nothing further), else yield it and continue. -/
def TakeWhile (p : α → Bool) : List α → List α
  | [] => []
  | x :: xs => if p x then [] else x :: TakeWhile p xs

/-- Loop of Go `Iterator.SkipWhile`, carrying the `skip` flag:
`if skip && !predicate(item) { continue }` else `skip = false; yield(item)`. -/
def SkipWhile.go (p : α → Bool) : Bool → List α → List α
  | _, [] => []
  | skip, x :: xs =>
    if skip && !p x then SkipWhile.go p skip xs
    else x :: SkipWhile.go p false xs

/-- Go `Iterator.SkipWhile`: starts with `skip := true`. -/
def SkipWhile (p : α → Bool) (l : List α) : List α :=
  SkipWhile.go p true l

/-- Loop of Go `Iterator.Single` (no-predicate branch) once a first element
has been stored in `result`: any further element returns the
more-than-one-element error immediately. -/
def Single.go (result : α) : List α → Except Err α
  | [] => Except.ok result
  | _ :: _ => Except.error Err.sourceHasMoreThanOneElement

/-- Go `Iterator.Single` (no-predicate branch): the `found` flag is false
exactly until the first element. -/
def Single : List α → Except Err α
  | [] => Except.error Err.sourceContainsNoElements
  | x :: xs => Single.go x xs

/-- Loop of Go `Iterator.First` (predicate branch) on a non-empty source:
returns the first element satisfying `p`, else (source exhausted with the
`any` flag set) the no-element-satisfies error. -/
def First.loop (p : α → Bool) : List α → Except Err α
  | [] => Except.error Err.noElementSatisfiesTheConditionInPredicate
  | x :: xs => if p x then Except.ok x else First.loop p xs

/-- Go `Iterator.First` (predicate branch).  The Go `any` flag becomes true
iff the source is non-empty, so an empty source reports the empty-source
error and a non-empty one runs the matching loop. -/
def First (p : α → Bool) (l : List α) : Except Err α :=
  match l with
  | [] => Except.error Err.sourceContainsNoElements
  | _ => First.loop p l

/-- Loop of Go `Iterator.Last` (predicate branch): `found`/`result` are
carried as an `Option`, overwritten by every satisfying element. -/
def Last.loop (p : α → Bool) (found : Option α) : List α → Option α
  | [] => found
  | x :: xs => Last.loop p (if p x then some x else found) xs

/-- Go `Iterator.Last` (predicate branch): empty source reports the
empty-source error (`any` flag); otherwise the last satisfying element, or
the no-element-satisfies error if the loop found none. -/
def Last (p : α → Bool) (l : List α) : Except Err α :=
  match l with
  | [] => Except.error Err.sourceContainsNoElements
  | _ =>
    match Last.loop p none l with
    | some r => Except.ok r
    | none => Except.error Err.noElementSatisfiesTheConditionInPredicate

/-- Accumulation loop shared by Go `Iterator.Aggregate` and the free function
`Aggregate`: `for item := range source { result = accumulator(result, item) }`. -/
def Aggregate.loop (accumulator : β → α → β) (result : β) : List α → β
  | [] => result
  | x :: xs => Aggregate.loop accumulator (accumulator result x) xs

/-- Go `Aggregate` (and the identically-shaped method): seed, fold, then
apply the optional trailing `resultSelector` if one was passed. -/
def Aggregate (source : List α) (seed : β) (accumulator : β → α → β)
    (resultSelector : Option (β → β)) : β :=
  let result := Aggregate.loop accumulator seed source
  match resultSelector with
  | some f => f result
  | none => result

/-- Go `Iterator.SequenceEqual`: iterates the left sequence, pulling the
right one element at a time; any exhausted pull or unequal pair returns
false; after the left side ends, one more pull of the right side must fail.
`eq` is the resolved equality (comparer branch shown; the `IEquatable` and
`DeepEqual` branches run the same loop with their own test). -/
def SequenceEqual (eq : α → α → Bool) : List α → List α → Bool
  | [], rest => rest.isEmpty
  | _ :: _, [] => false
  | x :: xs, y :: ys => if eq x y then SequenceEqual eq xs ys else false

/-- Loop of Go `Sum`: `var result TValue` (the zero value), then
`result += item` over the source. -/
def Sum.loop [Add α] (result : α) : List α → α
  | [] => result
  | x :: xs => Sum.loop (result + x) xs

/-- Go `Sum`, for any element type with a `+` and a zero value (Go `Number`
or `String` constraint). -/
def Sum [Add α] [Zero α] (source : List α) : α :=
  Sum.loop 0 source

/-- Loop of Go `Average`: accumulates the running sum and element count. -/
def Average.loop (sum : Int) (count : Nat) : List Int → Int × Nat
  | [] => (sum, count)
  | x :: xs => Average.loop (sum + x) (count + 1) xs

/-- Go `Average` over an integer source: empty sources are detected by the
explicit count check before any division.  (Go divides as `float64`; exact
rational division stands in for it here, which is irrelevant to the claims,
all of which concern only the empty-source error path.) -/
def Average (source : List Int) : Except Err Rat :=
  let sc := Average.loop 0 0 source
  if sc.2 = 0 then Except.error Err.sourceContainsNoElements
  else Except.ok ((sc.1 : Rat) / (sc.2 : Rat))

/-!
### The sort used by Order / OrderBy

Go's `slices.SortFunc` — an UNSTABLE pattern-defeating quicksort — embedded
function by function from the Go standard library (`slices`, generated
`*CmpFunc` variants): `insertionSortCmpFunc`, `siftDownCmpFunc`,
`heapSortCmpFunc`, `partitionCmpFunc`, `partitionEqualCmpFunc`,
`partialInsertionSortCmpFunc`, `breakPatternsCmpFunc`, `choosePivotCmpFunc`,
`order2CmpFunc`, `medianCmpFunc`, `medianAdjacentCmpFunc`,
`reverseRangeCmpFunc`, `pdqsortCmpFunc`.  The slice is an `Array α`; loops
whose counters do not structurally decrease carry an explicit fuel argument
that strictly exceeds the loop's iteration bound, so the fuel case is never
the one that returns. -/

/-- Go `data[i], data[j] = data[j], data[i]`. -/
def swapData [Inhabited α] (d : Array α) (i j : Nat) : Array α :=
  let vi := d.get! i
  let vj := d.get! j
  (d.set! i vj).set! j vi

/-- Inner loop of `insertionSortCmpFunc`:
`for j := i; j > a && cmp(data[j], data[j-1]) < 0; j--`. -/
def insertionSortInner [Inhabited α] (cmp : α → α → Int) (a : Nat) : Nat → Array α → Array α
  | 0, d => d
  | j + 1, d =>
    if j + 1 > a ∧ cmp (d.get! (j + 1)) (d.get! j) < 0 then
      insertionSortInner cmp a j (swapData d (j + 1) j)
    else d

/-- Outer loop of `insertionSortCmpFunc`: `for i := a + 1; i < b; i++`. -/
def insertionSortOuter [Inhabited α] (cmp : α → α → Int) (a b : Nat) :
    Nat → Nat → Array α → Array α
  | 0, _, d => d
  | fuel + 1, i, d =>
    if i < b then insertionSortOuter cmp a b fuel (i + 1) (insertionSortInner cmp a i d)
    else d

/-- Go `insertionSortCmpFunc(data, a, b, cmp)`. -/
def insertionSort [Inhabited α] (cmp : α → α → Int) (d : Array α) (a b : Nat) : Array α :=
  insertionSortOuter cmp a b (b + 1) (a + 1) d

/-- Loop of `siftDownCmpFunc` (root descends while its larger child wins). -/
def siftDownGo [Inhabited α] (cmp : α → α → Int) (hi first : Nat) :
    Nat → Nat → Array α → Array α
  | 0, _, d => d
  | fuel + 1, root, d =>
    let child := 2 * root + 1
    if child ≥ hi then d
    else
      let child :=
        if child + 1 < hi ∧ cmp (d.get! (first + child)) (d.get! (first + child + 1)) < 0 then
          child + 1
        else child
      if ¬ cmp (d.get! (first + root)) (d.get! (first + child)) < 0 then d
      else siftDownGo cmp hi first fuel child (swapData d (first + root) (first + child))

/-- Go `siftDownCmpFunc(data, lo, hi, first, cmp)`. -/
def siftDown [Inhabited α] (cmp : α → α → Int) (d : Array α) (lo hi first : Nat) : Array α :=
  siftDownGo cmp hi first (hi + 1) lo d

/-- Heap-building loop of `heapSortCmpFunc`:
`for i := (hi - 1) / 2; i >= 0; i--`; the argument counts `i + 1` down. -/
def heapSortBuild [Inhabited α] (cmp : α → α → Int) (hi first : Nat) : Nat → Array α → Array α
  | 0, d => d
  | i + 1, d => heapSortBuild cmp hi first i (siftDown cmp d i hi first)

/-- Pop loop of `heapSortCmpFunc`: `for i := hi - 1; i >= 0; i--`. -/
def heapSortPop [Inhabited α] (cmp : α → α → Int) (first : Nat) : Nat → Array α → Array α
  | 0, d => d
  | i + 1, d => heapSortPop cmp first i (siftDown cmp (swapData d first (first + i)) 0 i first)

/-- Go `heapSortCmpFunc(data, a, b, cmp)` with `first := a`, `lo := 0`,
`hi := b - a`. -/
def heapSort [Inhabited α] (cmp : α → α → Int) (d : Array α) (a b : Nat) : Array α :=
  heapSortPop cmp a (b - a) (heapSortBuild cmp (b - a) a ((b - a - 1) / 2 + 1) d)

/-- `for i <= j && (cmp(data[i], data[a]) < 0) { i++ }` of `partitionCmpFunc`. -/
def partitionScanI [Inhabited α] (cmp : α → α → Int) (d : Array α) (a j : Nat) :
    Nat → Nat → Nat
  | 0, i => i
  | fuel + 1, i =>
    if i ≤ j ∧ cmp (d.get! i) (d.get! a) < 0 then partitionScanI cmp d a j fuel (i + 1)
    else i

/-- `for i <= j && !(cmp(data[j], data[a]) < 0) { j-- }` of `partitionCmpFunc`. -/
def partitionScanJ [Inhabited α] (cmp : α → α → Int) (d : Array α) (a i : Nat) :
    Nat → Nat → Nat
  | 0, j => j
  | fuel + 1, j =>
    if i ≤ j ∧ ¬ cmp (d.get! j) (d.get! a) < 0 then partitionScanJ cmp d a i fuel (j - 1)
    else j

/-- The unconditional `for` loop of `partitionCmpFunc` (scan, scan, break if
crossed, swap, advance). -/
def partitionLoop [Inhabited α] (cmp : α → α → Int) (a b : Nat) :
    Nat → Array α → Nat → Nat → Array α × Nat × Nat
  | 0, d, i, j => (d, i, j)
  | fuel + 1, d, i, j =>
    let i := partitionScanI cmp d a j (b + 1) i
    let j := partitionScanJ cmp d a i (b + 1) j
    if i > j then (d, i, j)
    else partitionLoop cmp a b fuel (swapData d i j) (i + 1) (j - 1)

/-- Go `partitionCmpFunc(data, a, b, pivot, cmp)`, returning the array, the
new pivot position and the `alreadyPartitioned` flag. -/
def partition [Inhabited α] (cmp : α → α → Int) (d : Array α) (a b pivot : Nat) :
    Array α × Nat × Bool :=
  let d := swapData d a pivot
  let i := a + 1
  let j := b - 1
  let i := partitionScanI cmp d a j (b + 1) i
  let j := partitionScanJ cmp d a i (b + 1) j
  if i > j then (swapData d j a, j, true)
  else
    let d := swapData d i j
    let r := partitionLoop cmp a b (b + 1) d (i + 1) (j - 1)
    (swapData r.1 r.2.2 a, r.2.2, false)

/-- `for i <= j && !(cmp(data[a], data[i]) < 0) { i++ }` of
`partitionEqualCmpFunc`. -/
def partitionEqScanI [Inhabited α] (cmp : α → α → Int) (d : Array α) (a j : Nat) :
    Nat → Nat → Nat
  | 0, i => i
  | fuel + 1, i =>
    if i ≤ j ∧ ¬ cmp (d.get! a) (d.get! i) < 0 then partitionEqScanI cmp d a j fuel (i + 1)
    else i

/-- `for i <= j && (cmp(data[a], data[j]) < 0) { j-- }` of
`partitionEqualCmpFunc`. -/
def partitionEqScanJ [Inhabited α] (cmp : α → α → Int) (d : Array α) (a i : Nat) :
    Nat → Nat → Nat
  | 0, j => j
  | fuel + 1, j =>
    if i ≤ j ∧ cmp (d.get! a) (d.get! j) < 0 then partitionEqScanJ cmp d a i fuel (j - 1)
    else j

/-- The `for` loop of `partitionEqualCmpFunc`. -/
def partitionEqualLoop [Inhabited α] (cmp : α → α → Int) (a b : Nat) :
    Nat → Array α → Nat → Nat → Array α × Nat
  | 0, d, i, _ => (d, i)
  | fuel + 1, d, i, j =>
    let i := partitionEqScanI cmp d a j (b + 1) i
    let j := partitionEqScanJ cmp d a i (b + 1) j
    if i > j then (d, i)
    else partitionEqualLoop cmp a b fuel (swapData d i j) (i + 1) (j - 1)

/-- Go `partitionEqualCmpFunc(data, a, b, pivot, cmp)`. -/
def partitionEqual [Inhabited α] (cmp : α → α → Int) (d : Array α) (a b pivot : Nat) :
    Array α × Nat :=
  let d := swapData d a pivot
  partitionEqualLoop cmp a b (b + 1) d (a + 1) (b - 1)

/-- `for i < b && !(cmp(data[i], data[i-1]) < 0) { i++ }` of Go
`partialInsertionSortCmpFunc`. -/
def partAdvance [Inhabited α] (cmp : α → α → Int) (b : Nat) : Nat → Nat → Array α → Nat
  | 0, i, _ => i
  | fuel + 1, i, d =>
    if i < b ∧ ¬ cmp (d.get! i) (d.get! (i - 1)) < 0 then partAdvance cmp b fuel (i + 1) d
    else i

/-- "Shift the smaller one to the left" loop of Go
`partialInsertionSortCmpFunc`: `for j := i - 1; j >= 1; j--`. -/
def partShiftLeft [Inhabited α] (cmp : α → α → Int) : Nat → Array α → Array α
  | 0, d => d
  | j + 1, d =>
    if ¬ cmp (d.get! (j + 1)) (d.get! j) < 0 then d
    else partShiftLeft cmp j (swapData d (j + 1) j)

/-- "Shift the greater one to the right" loop of Go
`partialInsertionSortCmpFunc`: `for j := i + 1; j < b; j++`. -/
def partShiftRight [Inhabited α] (cmp : α → α → Int) (b : Nat) : Nat → Nat → Array α → Array α
  | 0, _, d => d
  | fuel + 1, j, d =>
    if j < b then
      if ¬ cmp (d.get! j) (d.get! (j - 1)) < 0 then d
      else partShiftRight cmp b fuel (j + 1) (swapData d j (j - 1))
    else d

/-- Main loop of Go `partialInsertionSortCmpFunc` (`maxSteps = 5`,
`shortestShifting = 50`); returns the array and whether it finished sorted. -/
def partInsertionSortGo [Inhabited α] (cmp : α → α → Int) (a b : Nat) :
    Nat → Nat → Array α → Array α × Bool
  | 0, _, d => (d, false)
  | steps + 1, i, d =>
    let i := partAdvance cmp b (b + 1) i d
    if i = b then (d, true)
    else if b - a < 50 then (d, false)
    else
      let d := swapData d i (i - 1)
      let d := if i - a ≥ 2 then partShiftLeft cmp (i - 1) d else d
      let d := if b - i ≥ 2 then partShiftRight cmp b (b + 1) (i + 1) d else d
      partInsertionSortGo cmp a b steps i d

/-- Go `partialInsertionSortCmpFunc(data, a, b, cmp)`. -/
def partInsertionSort [Inhabited α] (cmp : α → α → Int) (d : Array α) (a b : Nat) :
    Array α × Bool :=
  partInsertionSortGo cmp a b 5 (a + 1) d

/-- Go `xorshift.Next` (Marsaglia xorshift64: `<< 13`, `>> 7`, `<< 17`) on a
`uint64` state, returning the new state. -/
def xorshiftNext (r : Nat) : Nat :=
  let r := (r ^^^ (r <<< 13)) % 2 ^ 64
  let r := r ^^^ (r >>> 7)
  let r := (r ^^^ (r <<< 17)) % 2 ^ 64
  r

/-- Helper of `bitsLen`, with fuel (the dividend shrinks to 0 in at most
`n + 1` halvings). -/
def bitsLenGo : Nat → Nat → Nat
  | 0, _ => 0
  | fuel + 1, n => if n = 0 then 0 else bitsLenGo fuel (n / 2) + 1

/-- Go `bits.Len(uint(n))`: the number of bits needed to represent `n`. -/
def bitsLen (n : Nat) : Nat := bitsLenGo (n + 1) n

/-- Go `nextPowerOfTwo(length) = 1 << bits.Len(uint(length))`. -/
def nextPowerOfTwo (length : Nat) : Nat := 1 <<< bitsLen length

/-- The three-iteration swap loop of Go `breakPatternsCmpFunc`. -/
def breakPatternsLoop [Inhabited α] (a idx length modulus : Nat) :
    Nat → Nat → Nat → Array α → Array α
  | 0, _, _, d => d
  | n + 1, i, r, d =>
    let r := xorshiftNext r
    let other := r &&& (modulus - 1)
    let other := if other ≥ length then other - length else other
    breakPatternsLoop a idx length modulus n (i + 1) r (swapData d (idx - 1 + i) (a + other))

/-- Go `breakPatternsCmpFunc(data, a, b)`: randomizes three pivot-candidate
positions with an xorshift seeded by the segment length. -/
def breakPatterns [Inhabited α] (d : Array α) (a b : Nat) : Array α :=
  let length := b - a
  if length ≥ 8 then
    breakPatternsLoop a (a + length / 4 * 2 - 1) length (nextPowerOfTwo length) 3 0 length d
  else d

/-- The three pivot hints of Go's `sortedHint`. -/
inductive SortedHint : Type
  | increasing
  | decreasing
  | unknown
deriving DecidableEq, Repr

/-- Go `order2CmpFunc`: orders two indices by their elements, counting swaps. -/
def order2 [Inhabited α] (cmp : α → α → Int) (d : Array α) (a b swaps : Nat) :
    Nat × Nat × Nat :=
  if cmp (d.get! b) (d.get! a) < 0 then (b, a, swaps + 1) else (a, b, swaps)

/-- Go `medianCmpFunc`: the index of the median of three elements, counting
swaps. -/
def median [Inhabited α] (cmp : α → α → Int) (d : Array α) (a b c swaps : Nat) :
    Nat × Nat :=
  let r1 := order2 cmp d a b swaps
  let r2 := order2 cmp d r1.2.1 c r1.2.2
  let r3 := order2 cmp d r1.1 r2.1 r2.2.2
  (r3.2.1, r3.2.2)

/-- Go `medianAdjacentCmpFunc`: median of `data[a-1], data[a], data[a+1]`. -/
def medianAdjacent [Inhabited α] (cmp : α → α → Int) (d : Array α) (a swaps : Nat) :
    Nat × Nat :=
  median cmp d (a - 1) a (a + 1) swaps

/-- Go `choosePivotCmpFunc` (`shortestNinther = 50`, `maxSwaps = 12`). -/
def choosePivot [Inhabited α] (cmp : α → α → Int) (d : Array α) (a b : Nat) :
    Nat × SortedHint :=
  let l := b - a
  let i := a + l / 4 * 1
  let j := a + l / 4 * 2
  let k := a + l / 4 * 3
  let js :=
    if l ≥ 8 then
      if l ≥ 50 then
        let r1 := medianAdjacent cmp d i 0
        let r2 := medianAdjacent cmp d j r1.2
        let r3 := medianAdjacent cmp d k r2.2
        median cmp d r1.1 r2.1 r3.1 r3.2
      else median cmp d i j k 0
    else (j, 0)
  if js.2 = 0 then (js.1, SortedHint.increasing)
  else if js.2 = 12 then (js.1, SortedHint.decreasing)
  else (js.1, SortedHint.unknown)

/-- Loop of Go `reverseRangeCmpFunc`. -/
def reverseRangeGo [Inhabited α] : Nat → Nat → Nat → Array α → Array α
  | 0, _, _, d => d
  | fuel + 1, i, j, d =>
    if i < j then reverseRangeGo fuel (i + 1) (j - 1) (swapData d i j) else d

/-- Go `reverseRangeCmpFunc(data, a, b)`: reverses `data[a : b]`. -/
def reverseRange [Inhabited α] (d : Array α) (a b : Nat) : Array α :=
  reverseRangeGo (b + 1) a (b - 1) d

/-- Go `pdqsortCmpFunc(data, a, b, limit, cmp)` (`maxInsertion = 12`).  The
outer `for` loop is the fuel recursion with carried `wasBalanced` /
`wasPartitioned` flags; the two Go recursive calls restart both flags at
`true`, exactly as a fresh invocation does. -/
def pdqsortGo [Inhabited α] (cmp : α → α → Int) :
    Nat → Array α → Nat → Nat → Nat → Bool → Bool → Array α
  | 0, d, _, _, _, _, _ => d
  | fuel + 1, d, a, b, limit, wasBalanced, wasPartitioned =>
    let length := b - a
    if length ≤ 12 then insertionSort cmp d a b
    else if limit = 0 then heapSort cmp d a b
    else
      let dl := if ¬ wasBalanced then (breakPatterns d a b, limit - 1) else (d, limit)
      let d := dl.1
      let limit := dl.2
      let ph := choosePivot cmp d a b
      let dph :=
        if ph.2 = SortedHint.decreasing then
          (reverseRange d a b, (b - 1) - (ph.1 - a), SortedHint.increasing)
        else (d, ph.1, ph.2)
      let d := dph.1
      let pivot := dph.2.1
      let hint := dph.2.2
      let ds :=
        if wasBalanced ∧ wasPartitioned ∧ hint = SortedHint.increasing then
          partInsertionSort cmp d a b
        else (d, false)
      let d := ds.1
      if ds.2 then d
      else if a > 0 ∧ ¬ cmp (d.get! (a - 1)) (d.get! pivot) < 0 then
        let dm := partitionEqual cmp d a b pivot
        pdqsortGo cmp fuel dm.1 dm.2 b limit wasBalanced wasPartitioned
      else
        let dmp := partition cmp d a b pivot
        let mid := dmp.2.1
        let wasPartitioned := dmp.2.2
        let leftLen := mid - a
        let rightLen := b - mid
        let balanceThreshold := length / 8
        let wasBalanced := decide (min leftLen rightLen ≥ balanceThreshold)
        if leftLen < rightLen then
          pdqsortGo cmp fuel (pdqsortGo cmp fuel dmp.1 a mid limit true true)
            (mid + 1) b limit wasBalanced wasPartitioned
        else
          pdqsortGo cmp fuel (pdqsortGo cmp fuel dmp.1 (mid + 1) b limit true true)
            a mid limit wasBalanced wasPartitioned

/-- Go `slices.SortFunc(x, cmp)`:
`pdqsortCmpFunc(x, 0, n, bits.Len(uint(n)), cmp)`.  The fuel strictly
dominates the total number of loop iterations along any path of the
recursion. -/
def sortFunc [Inhabited α] (d : Array α) (cmp : α → α → Int) : Array α :=
  pdqsortGo cmp (2 * d.size + 64) d 0 d.size (bitsLen d.size) true true

/-- Go `cmp.Compare` for ordered primitives: -1, 0 or 1. -/
def cmpCompare (x y : Int) : Int := if x < y then -1 else if x > y then 1 else 0

/-- Go `Iterator.Order` (explicit-comparer branch): materialize the source
into a slice, `slices.SortFunc` it with the caller's comparer, emit. -/
def Order [Inhabited α] (source : List α) (cmp : α → α → Int) : List α :=
  (sortFunc source.toArray cmp).toList

/-- Go `OrderBy` (default-comparison branch, integer keys): build the
`ValuePair(Item1: item, Item2: valueSelector(item))` slice, sort it with
`slices.SortFunc` comparing `Item2` by `cmp.Compare`, emit the `Item1`s. -/
def OrderBy [Inhabited α] (source : List α) (valueSelector : α → Int) : List α :=
  let pairs := source.map fun item => (item, valueSelector item)
  ((sortFunc pairs.toArray fun x y => cmpCompare x.2 y.2).toList).map Prod.fst

end Linq

/-! ## Supporting lemmas -/

theorem Linq.Reverse.go_oob {α : Type} (rv : List α) (acc : List α) (n : Nat)
    (h : rv[n]? = none) : Linq.Reverse.go rv n acc = none := by
  cases n <;> simp only [Linq.Reverse.go] <;> rw [h]

theorem Linq.TakeWhile.eq_takeWhile_not {α : Type} (p : α → Bool) (l : List α) :
    Linq.TakeWhile p l = l.takeWhile fun y => !p y := by
  induction l with
  | nil => rfl
  | cons x xs ih =>
    cases hp : p x <;> simp [Linq.TakeWhile, List.takeWhile_cons, hp, ih]

theorem Linq.SkipWhile.go_false {α : Type} (p : α → Bool) (l : List α) :
    Linq.SkipWhile.go p false l = l := by
  induction l with
  | nil => rfl
  | cons x xs ih => simp [Linq.SkipWhile.go, ih]

theorem Linq.SkipWhile.go_true {α : Type} (p : α → Bool) (l : List α) :
    Linq.SkipWhile.go p true l = l.dropWhile fun y => !p y := by
  induction l with
  | nil => rfl
  | cons x xs ih =>
    cases hp : p x <;>
      simp [Linq.SkipWhile.go, List.dropWhile_cons, hp, ih, Linq.SkipWhile.go_false]

theorem Linq.TakeWhile.stops {α : Type} (p : α → Bool) (x : α) (l₁ l₂ : List α)
    (hx : p x = true) :
    Linq.TakeWhile p (l₁ ++ x :: l₂) = Linq.TakeWhile p (l₁ ++ [x]) := by
  induction l₁ with
  | nil => simp [Linq.TakeWhile, hx]
  | cons y ys ih => cases hy : p y <;> simp [Linq.TakeWhile, hy, ih]

theorem Linq.First.loop_find_first {α : Type} (p : α → Bool) (l : List α) :
    Linq.First.loop p l =
      match l.find? p with
      | some x => Except.ok x
      | none => Except.error Linq.Err.noElementSatisfiesTheConditionInPredicate := by
  induction l with
  | nil => rfl
  | cons x xs ih =>
    cases hp : p x <;>
      simp [Linq.First.loop, hp, ih, List.find?_cons_of_pos, List.find?_cons_of_neg]

theorem Linq.Last.loop_find_last {α : Type} (p : α → Bool) (l : List α) (acc : Option α) :
    Linq.Last.loop p acc l = (l.reverse.find? p).or acc := by
  induction l generalizing acc with
  | nil => rfl
  | cons x xs ih =>
    rw [Linq.Last.loop, ih, List.reverse_cons, List.find?_append]
    cases hfind : xs.reverse.find? p <;> cases hp : p x <;>
      simp [hp, Option.or, List.find?_cons_of_pos, List.find?_cons_of_neg]

theorem Linq.SequenceEqual.eq_length_forall₂ {α : Type} (eq : α → α → Bool) :
    ∀ u v : List α, Linq.SequenceEqual eq u v = true ↔
      u.length = v.length ∧ List.Forall₂ (fun x y => eq x y = true) u v := by
  intro u
  induction u with
  | nil =>
    intro v
    cases v <;> simp [Linq.SequenceEqual]
  | cons x xs ih =>
    intro v
    cases v with
    | nil => simp [Linq.SequenceEqual]
    | cons y ys =>
      cases hp : eq x y <;>
        simp [Linq.SequenceEqual, hp, ih, List.forall₂_cons]

theorem Linq.Sum.loop_eq_foldl {α : Type} [Add α] (acc : α) (l : List α) :
    Linq.Sum.loop acc l = l.foldl (· + ·) acc := by
  induction l generalizing acc with
  | nil => rfl
  | cons x xs ih => simp [Linq.Sum.loop, List.foldl, ih]

/-! ## Claim theorems -/

/-- C1: the spec and the function's own documentation say
`FromSlice([1,2,3,1,2,3]).Except(FromSlice([1,2,1,1])).ToSlice()` yields `[3]`
(left-distinct elements not equal to any right-hand element); the implemented
nested loops instead yield each left-distinct element that IS equal to a
right-distinct element, producing `[1, 2]` at exactly that documented input. -/
theorem C1_except_yields_intersection_at_doc_example :
    Linq.ExceptGo (fun a b : Int => a == b) [1, 2, 3, 1, 2, 3] [1, 2, 1, 1] = [1, 2]
    ∧ ([1, 2] : List Int) ≠ [3]
    ∧ Linq.Distinct (fun a b : Int => a == b) [1, 2, 3, 1, 2, 3] = [1, 2, 3]
    ∧ Linq.Distinct (fun a b : Int => a == b) [1, 2, 1, 1] = [1, 2] :=
  ⟨rfl, by decide, rfl, rfl⟩

set_option maxRecDepth 40000 in
/-- C2: the sort behind Order/OrderBy is Go's `slices.SortFunc`
(pattern-defeating quicksort), which is not stable.  On thirteen
`(key, tag)` pairs — twelve equal keys `1` tagged `0..11` in input order,
then key `0` tagged `12` — OrderBy on the key produces the tag order
`[12, 6, 2, 3, 4, 5, 0, 7, 8, 9, 10, 11, 1]`: a permutation of the input
whose keys are non-decreasing (they coincide with the keys of the stable
result), but the equal-keyed elements do not retain their input order
`[12, 0, 1, ..., 11]`.  The Order method's comparer branch runs the same
sort and reorders the same pairs. -/
theorem C2_orderBy_sort_not_stable :
    Linq.OrderBy
        ([(1, 0), (1, 1), (1, 2), (1, 3), (1, 4), (1, 5), (1, 6), (1, 7), (1, 8),
          (1, 9), (1, 10), (1, 11), (0, 12)] : List (Int × Int)) Prod.fst =
      [(0, 12), (1, 6), (1, 2), (1, 3), (1, 4), (1, 5), (1, 0), (1, 7), (1, 8),
        (1, 9), (1, 10), (1, 11), (1, 1)]
    ∧ Linq.Order
        ([(1, 0), (1, 1), (1, 2), (1, 3), (1, 4), (1, 5), (1, 6), (1, 7), (1, 8),
          (1, 9), (1, 10), (1, 11), (0, 12)] : List (Int × Int))
        (fun x y => Linq.cmpCompare x.1 y.1) =
      [(0, 12), (1, 6), (1, 2), (1, 3), (1, 4), (1, 5), (1, 0), (1, 7), (1, 8),
        (1, 9), (1, 10), (1, 11), (1, 1)]
    ∧ List.Perm
        ([(0, 12), (1, 6), (1, 2), (1, 3), (1, 4), (1, 5), (1, 0), (1, 7), (1, 8),
          (1, 9), (1, 10), (1, 11), (1, 1)] : List (Int × Int))
        [(0, 12), (1, 0), (1, 1), (1, 2), (1, 3), (1, 4), (1, 5), (1, 6), (1, 7),
          (1, 8), (1, 9), (1, 10), (1, 11)]
    ∧ List.map Prod.fst
        ([(0, 12), (1, 6), (1, 2), (1, 3), (1, 4), (1, 5), (1, 0), (1, 7), (1, 8),
          (1, 9), (1, 10), (1, 11), (1, 1)] : List (Int × Int)) =
      List.map Prod.fst
        ([(0, 12), (1, 0), (1, 1), (1, 2), (1, 3), (1, 4), (1, 5), (1, 6), (1, 7),
          (1, 8), (1, 9), (1, 10), (1, 11)] : List (Int × Int))
    ∧ ([(0, 12), (1, 6), (1, 2), (1, 3), (1, 4), (1, 5), (1, 0), (1, 7), (1, 8),
          (1, 9), (1, 10), (1, 11), (1, 1)] : List (Int × Int)) ≠
        [(0, 12), (1, 0), (1, 1), (1, 2), (1, 3), (1, 4), (1, 5), (1, 6), (1, 7),
          (1, 8), (1, 9), (1, 10), (1, 11)] := by
  refine ⟨by decide, by decide, by decide, by decide, by decide⟩

/-- C3: with a caller-supplied three-way comparer (negative = first argument
less), the Min method returns 3 on [1,3,2] even though 1 compares less than 3,
and the Max method returns 1 on [3,1,2] even though 3 compares greater than 1:
the update conditions are inverted, so Min tracks the maximum and Max the
minimum.  The empty-source error behaviour does match the claim. -/
theorem C3_min_max_comparer_inverted :
    Linq.Min (fun a b : Int => a - b) [1, 3, 2] = Except.ok 3
    ∧ ((1 : Int) - 3 < 0 ∧ (1 : Int) ∈ ([1, 3, 2] : List Int))
    ∧ Linq.Max (fun a b : Int => a - b) [3, 1, 2] = Except.ok 1
    ∧ ((3 : Int) - 1 > 0 ∧ (3 : Int) ∈ ([3, 1, 2] : List Int))
    ∧ Linq.Min (fun a b : Int => a - b) ([] : List Int) =
        Except.error Linq.Err.sourceContainsNoElements
    ∧ Linq.Max (fun a b : Int => a - b) ([] : List Int) =
        Except.error Linq.Err.sourceContainsNoElements :=
  ⟨rfl, by decide, rfl, by decide, rfl, rfl⟩

/-- C4: the emit loop of Reverse runs `i` from `len(reverse)` down to `0` and
reads `reverse[i]`, so its very first access is out of range: Reverse panics
(modelled as `none`) on every input, including the empty one, and the claimed
`Reverse().Reverse()` round trip never happens. -/
theorem C4_reverse_always_out_of_range :
    (∀ l : List Int, Linq.Reverse l = none)
    ∧ Linq.Reverse ([1, 2, 3] : List Int) = none := by
  constructor
  · intro l
    exact Linq.Reverse.go_oob l [] l.length (List.getElem?_eq_none (Nat.le_refl _))
  · rfl

/-- C5 counterexample: the claim says SkipWhile skips only while the predicate
returns true, hence on `[1,2,3,1]` with predicate `2 < x` (false at the head)
nothing would be skipped; the code instead skips the leading elements on which
the predicate is false and returns `[3, 1]`. -/
theorem C5_skipWhile_polarity_counterexample :
    Linq.SkipWhile (fun x : Int => decide (2 < x)) [1, 2, 3, 1] = [3, 1]
    ∧ (fun x : Int => decide (2 < x)) 1 = false
    ∧ ([3, 1] : List Int) ≠ [1, 2, 3, 1] :=
  ⟨rfl, by decide, by decide⟩

/-- C5 (amended): TakeWhile forwards elements in order and stops forwarding —
pulling nothing further from the source — at the first element where the
predicate returns true (stop condition); SkipWhile skips elements only while
the predicate returns false and, from the first element where the predicate
matches, forwards every subsequent element. -/
theorem C5_takeWhile_skipWhile_amended {α : Type} (p : α → Bool) (l : List α)
    (x : α) (l₁ l₂ : List α) :
    Linq.TakeWhile p l = l.takeWhile (fun y => !p y)
    ∧ Linq.SkipWhile p l = l.dropWhile (fun y => !p y)
    ∧ (p x = true → Linq.TakeWhile p (l₁ ++ x :: l₂) = Linq.TakeWhile p (l₁ ++ [x])) :=
  ⟨Linq.TakeWhile.eq_takeWhile_not p l, Linq.SkipWhile.go_true p l,
    fun hx => Linq.TakeWhile.stops p x l₁ l₂ hx⟩

/-- C5 witness: the third conjunct applied at a concrete input. -/
theorem C5_takeWhile_skipWhile_amended_witness :
    Linq.TakeWhile (fun y : Int => decide (2 < y)) ([1, 2, 3, 9] : List Int) =
      Linq.TakeWhile (fun y : Int => decide (2 < y)) [1, 2, 3] :=
  (C5_takeWhile_skipWhile_amended (fun y : Int => decide (2 < y)) [] 3 [1, 2] [9]).2.2
    (by decide)

/-- C6: Single without a predicate reports the empty-source error exactly on
zero elements, the source-has-more-than-one-element error exactly on length
two or more, and otherwise returns the unique element; concretely on `[]`,
`[1,2]` and `[4]`. -/
theorem C6_single_errors :
    ∀ l : List Int,
    (Linq.Single l = Except.error Linq.Err.sourceContainsNoElements ↔ l = [])
    ∧ (Linq.Single l = Except.error Linq.Err.sourceHasMoreThanOneElement ↔ 2 ≤ l.length)
    ∧ (∀ x : Int, l = [x] → Linq.Single l = Except.ok x)
    ∧ Linq.Single ([] : List Int) = Except.error Linq.Err.sourceContainsNoElements
    ∧ Linq.Single ([1, 2] : List Int) = Except.error Linq.Err.sourceHasMoreThanOneElement
    ∧ Linq.Single ([4] : List Int) = Except.ok 4 := by
  intro l
  refine ⟨?_, ?_, ?_, rfl, rfl, rfl⟩
  · rcases l with _ | ⟨x, _ | ⟨y, rest⟩⟩ <;> simp [Linq.Single, Linq.Single.go]
  · rcases l with _ | ⟨x, _ | ⟨y, rest⟩⟩ <;> simp [Linq.Single, Linq.Single.go]
  · rintro x rfl
    rfl

/-- C6 witness: the unique-element conjunct applied at `[4]`. -/
theorem C6_single_errors_witness : Linq.Single ([4] : List Int) = Except.ok 4 :=
  (C6_single_errors [4]).2.2.1 4 rfl

/-- C7: with a supplied predicate, strict First yields the first satisfying
element (`List.find?` over the source), the empty-source error exactly on an
empty source, and the no-element-satisfies error exactly on a non-empty source
with no match; strict Last behaves identically with the last satisfying
element (`find?` over the reversed source). -/
theorem C7_first_last_failure_kinds {α : Type} (p : α → Bool) (l : List α) :
    (Linq.First p l =
      match l.find? p with
      | some x => Except.ok x
      | none =>
        if l.isEmpty then Except.error Linq.Err.sourceContainsNoElements
        else Except.error Linq.Err.noElementSatisfiesTheConditionInPredicate)
    ∧ (Linq.Last p l =
      match l.reverse.find? p with
      | some x => Except.ok x
      | none =>
        if l.isEmpty then Except.error Linq.Err.sourceContainsNoElements
        else Except.error Linq.Err.noElementSatisfiesTheConditionInPredicate) := by
  constructor
  · cases l with
    | nil => rfl
    | cons x xs =>
      have h1 : Linq.First p (x :: xs) = Linq.First.loop p (x :: xs) := rfl
      rw [h1, Linq.First.loop_find_first]
      cases hfind : (x :: xs).find? p <;> simp [List.isEmpty_cons]
  · cases l with
    | nil => rfl
    | cons x xs =>
      have h1 : Linq.Last p (x :: xs) =
          (match Linq.Last.loop p none (x :: xs) with
           | some r => Except.ok r
           | none => Except.error Linq.Err.noElementSatisfiesTheConditionInPredicate) := rfl
      rw [h1, Linq.Last.loop_find_last]
      cases hfind : (x :: xs).reverse.find? p <;> simp [Option.or, List.isEmpty_cons]

/-- C8 counterexample: with a result-transform supplied, Aggregate on an empty
source returns the transform of the seed (here 50), not the seed (100). -/
theorem C8_aggregate_empty_transform_counterexample :
    Linq.Aggregate ([] : List Int) (100 : Int) (fun a b => a + b) (some fun a => a / 2) = 50
    ∧ (50 : Int) ≠ 100 :=
  ⟨rfl, by decide⟩

/-- C8 (amended): Aggregate always succeeds; on an empty source it returns the
seed unchanged when no result-transform is supplied, and the transform applied
to the seed when one is; over 1..7 with seed 100 and addition it returns 128,
and with a halving result-transform it returns 64. -/
theorem C8_aggregate_amended {α β : Type} (seed : β) (acc : β → α → β) (f : β → β) :
    Linq.Aggregate ([] : List α) seed acc none = seed
    ∧ Linq.Aggregate ([] : List α) seed acc (some f) = f seed
    ∧ Linq.Aggregate ([1, 2, 3, 4, 5, 6, 7] : List Int) (100 : Int)
        (fun a b => a + b) none = 128
    ∧ Linq.Aggregate ([1, 2, 3, 4, 5, 6, 7] : List Int) (100 : Int)
        (fun a b => a + b) (some fun a => a / 2) = 64 :=
  ⟨rfl, rfl, by decide, by decide⟩

/-- C9: SequenceEqual under the resolved equality returns true exactly when
the two sequences have the same length and corresponding elements compare
equal; in particular it is false whenever the lengths differ, and true on a
sequence compared with itself when the resolved equality is reflexive. -/
theorem C9_sequenceEqual_characterization {α : Type} (eq : α → α → Bool) (a b : List α) :
    (Linq.SequenceEqual eq a b = true ↔
      a.length = b.length ∧ List.Forall₂ (fun x y => eq x y = true) a b)
    ∧ (a.length ≠ b.length → Linq.SequenceEqual eq a b = false)
    ∧ ((∀ x, eq x x = true) → Linq.SequenceEqual eq a a = true) := by
  refine ⟨Linq.SequenceEqual.eq_length_forall₂ eq a b, ?_, ?_⟩
  · intro hne
    cases hSE : Linq.SequenceEqual eq a b with
    | false => rfl
    | true =>
      exact absurd ((Linq.SequenceEqual.eq_length_forall₂ eq a b).mp hSE).1 hne
  · intro hrefl
    exact (Linq.SequenceEqual.eq_length_forall₂ eq a a).mpr
      ⟨rfl, List.forall₂_same.mpr fun x _ => hrefl x⟩

/-- C9 witness: the self-equality and differing-length conjuncts at concrete
inputs. -/
theorem C9_sequenceEqual_characterization_witness :
    Linq.SequenceEqual (fun x y : Int => x == y) [1, 2] [1, 2] = true
    ∧ Linq.SequenceEqual (fun x y : Int => x == y) [1] [1, 2] = false :=
  ⟨(C9_sequenceEqual_characterization (fun x y : Int => x == y) [1, 2] [1, 2]).2.2
      (fun x => by simp),
    (C9_sequenceEqual_characterization (fun x y : Int => x == y) [1] [1, 2]).2.1
      (by decide)⟩

/-- C10: Sum is the left-to-right fold of `+` from the element type's zero
value and never fails; on an empty source it returns zero, whereas Average on
an empty source returns the empty-source error. -/
theorem C10_sum_is_fold_from_zero {α : Type} [Add α] [Zero α] (l : List α) :
    Linq.Sum l = l.foldl (· + ·) 0
    ∧ Linq.Sum ([] : List α) = 0
    ∧ Linq.Average ([] : List Int) = Except.error Linq.Err.sourceContainsNoElements
    ∧ Linq.Sum ([1, 2, 3] : List Int) = 6 :=
  ⟨Linq.Sum.loop_eq_foldl 0 l, rfl, rfl, by decide⟩
